import Mathlib

/-!
Verification of the notnow task tracker core against its specification.

The development shallowly embeds the relevant Rust modules:
* `src/selection.rs` — cyclic selection state (`SelectionState`);
* `src/tasks.rs` — tasks and the task collection (`Task`, `Tasks`);
* `src/state.rs` — program state load/save plumbing (`State`).

Rust machine integers are modelled as `Int`/`Nat`; the Rust `%` operator
on signed integers is truncated remainder, modelled by `Int.tmod`.
Operations that can panic (`Option::unwrap`, remainder by zero) are
modelled as `Option`/`Except` returning functions, `none`/`.error`
standing for the panic.  Modules of the repository that are referenced
from the embedded files but whose sources are not available
(`id.rs`, `tags.rs`, `query.rs`, `ser/state.rs`, `ser/tags.rs`) are
modelled from the specification; each such definition says so in its
doc comment.
-/

namespace Notnow

/-- Embeds `modulo` from `src/selection.rs`: `((x % y) + y) % y` where
the Rust `%` on `isize` is truncated remainder (`Int.tmod`). -/
def modulo (x y : Int) : Int :=
  ((x.tmod y) + y).tmod y

/-- Embeds `Iterator::position`: the index of the first element
satisfying the predicate, if any. -/
def position {T : Type} (p : T → Bool) : List T → Option Nat
  | [] => none
  | x :: rest => if p x then some 0 else (position p rest).map (· + 1)

/-- Embeds the `Selection` enum from `src/selection.rs`. -/
inductive Selection (T : Type) where
  | Start : T → Selection T
  | Normalized : Nat → Selection T

/-- Embeds `Selection::index` from `src/selection.rs`.  The `Start`
arm calls `iter.position(...).unwrap()`, which panics when the key is
absent; the panic is modelled by `none`. -/
def Selection.index {T : Type} [DecidableEq T] (s : Selection T) (l : List T) : Option Nat :=
  match s with
  | .Start start => position (fun x => x == start) l
  | .Normalized idx => some idx

/-- Embeds the `SelectionState` struct from `src/selection.rs`. -/
structure SelectionState (T : Type) where
  selection : Selection T
  reversed : Bool
  advanced : Int
  total : Int

/-- Embeds `SelectionState::new`. -/
def SelectionState.new {T : Type} (current : T) : SelectionState T :=
  { selection := .Start current, reversed := false, advanced := 0, total := 0 }

/-- Embeds `SelectionState::reverse`. -/
def SelectionState.reverse {T : Type} (s : SelectionState T) (r : Bool) : SelectionState T :=
  { s with reversed := r }

/-- Embeds `SelectionState::is_reversed`. -/
def SelectionState.is_reversed {T : Type} (s : SelectionState T) : Bool :=
  s.reversed

/-- Embeds `SelectionState::advance`. -/
def SelectionState.advance {T : Type} (s : SelectionState T) : SelectionState T :=
  let change : Int := if s.reversed then -1 else 1
  { s with advanced := s.advanced + change, total := s.total + change }

/-- Embeds `SelectionState::has_advanced`. -/
def SelectionState.has_advanced {T : Type} (s : SelectionState T) : Bool :=
  s.advanced != 0

/-- Embeds `SelectionState::reset_cycled`. -/
def SelectionState.reset_cycled {T : Type} (s : SelectionState T) : SelectionState T :=
  { s with total := 0 }

/-- Embeds `SelectionState::has_cycled`: `self.total.abs() as usize > count`. -/
def SelectionState.has_cycled {T : Type} (s : SelectionState T) (count : Nat) : Bool :=
  decide (s.total.natAbs > count)

/-- Embeds `SelectionState::normalize` from `src/selection.rs`.  The
remainder by zero (when the sequence is empty) and the `unwrap` inside
`Selection::index` both panic; the panics are modelled by `none`.  On
success the pair holds the returned index and the updated state. -/
def SelectionState.normalize {T : Type} [DecidableEq T] (s : SelectionState T) (l : List T) :
    Option (Nat × SelectionState T) :=
  match s.selection.index l with
  | none => none
  | some start_idx =>
    if l.length = 0 then
      none
    else
      let idx := (modulo ((start_idx : Int) + s.advanced) ((l.length : Int))).toNat
      some (idx, { s with selection := .Normalized idx, advanced := 0 })

/-- Iterated `advance`, expressing a number of `advance()` calls. -/
def SelectionState.advanceN {T : Type} (s : SelectionState T) : Nat → SelectionState T
  | 0 => s
  | k + 1 => (s.advanceN k).advance

/-- Modelled from the spec: `ser::tags::Tag` from the missing
`ser/tags.rs` — a serialised tag reference is just an id. -/
structure SerTag where
  id : Nat
deriving DecidableEq

/-- Embeds `ser::tasks::Task` from `src/ser/tasks.rs`. -/
structure SerTask where
  summary : String
  tags : List SerTag
deriving DecidableEq

/-- Modelled from the spec: `Template` from the missing `tags.rs` —
a tag definition with an id and a display name. -/
structure Template where
  id : Nat
  name : String
deriving DecidableEq

/-- Modelled from the spec: `Tag` from the missing `tags.rs` —
`Tag: {id} referencing a Template`. -/
structure Tag where
  id : Nat
deriving DecidableEq

/-- Modelled from the spec: the `Templates` registry from the missing
`tags.rs`; it holds the tag definitions and records the (at most one)
completion-marker template. -/
structure Templates where
  templates : List Template
  complete : Template
deriving DecidableEq

/-- Modelled from the spec: `Templates::complete_tag` returns the
completion-marker template. -/
def Templates.complete_tag (ts : Templates) : Template :=
  ts.complete

/-- Modelled from the spec: `Templates::instantiate` returns a `Tag`
bound to the given id; it is only ever invoked with ids already proven
valid, so it has no failure path of its own. -/
def Templates.instantiate (_ts : Templates) (id : Nat) : Tag :=
  { id := id }

/-- Modelled from the spec: `Tag::to_serde` — the serialisable form of
a tag is its id. -/
def Tag.to_serde (t : Tag) : SerTag :=
  { id := t.id }

/-- Modelled from the spec: `TagMap` from the missing `tags.rs`, the
validated serialised-id to runtime-id map built during template
loading. -/
abbrev TagMap : Type := List (Nat × Nat)

/-- Modelled from the spec: map lookup (`BTreeMap::get`) on a
`TagMap`. -/
def tagMapGet (map : TagMap) (k : Nat) : Option Nat :=
  match map with
  | [] => none
  | p :: rest => if p.1 = k then some p.2 else tagMapGet rest k

/-- Embeds `BTreeMap<TagId, Tag>` as an association list sorted by
key: insertion keeps the order and replaces the value when the key is
already present. -/
def btInsert (k : Nat) (v : Tag) : List (Nat × Tag) → List (Nat × Tag)
  | [] => [(k, v)]
  | p :: rest =>
    if k < p.1 then (k, v) :: p :: rest
    else if k = p.1 then (k, v) :: rest
    else p :: btInsert k v rest

/-- Embeds `BTreeMap::remove` on the association-list map. -/
def btRemove (k : Nat) : List (Nat × Tag) → List (Nat × Tag)
  | [] => []
  | p :: rest => if p.1 = k then rest else p :: btRemove k rest

/-- Embeds `BTreeMap::contains_key` on the association-list map. -/
def btContains (k : Nat) : List (Nat × Tag) → Bool
  | [] => false
  | p :: rest => p.1 == k || btContains k rest

/-- Embeds `collect()` into a `BTreeMap`: successive insertion. -/
def btOfList (l : List (Nat × Tag)) : List (Nat × Tag) :=
  l.foldl (fun acc p => btInsert p.1 p.2 acc) []

/-- Embeds the `Task` struct from `src/tasks.rs`; `tags` is the sorted
association list standing for `BTreeMap<TagId, Tag>`, and the
`Rc<Templates>` handle is an ordinary field. -/
structure Task where
  id : Nat
  summary : String
  tags : List (Nat × Tag)
  templates : Templates
deriving DecidableEq

/-- Embeds `Task::with_summary_and_tags` from `src/tasks.rs`; the
fresh value of `Id::new()` (allocator from the missing `id.rs`,
modelled from the spec as explicit counter state) is passed in. -/
def Task.with_summary_and_tags (id : Nat) (summary : String) (tags : List Tag)
    (templates : Templates) : Task :=
  { id := id, summary := summary,
    tags := btOfList (tags.map (fun x => (x.id, x))), templates := templates }

/-- Embeds the tag-resolution loop of `Task::with_serde` from
`src/tasks.rs`: every serialised tag id is looked up in the validation
map and an unknown id aborts with the error message of the source. -/
def resolveTags (templates : Templates) (map : TagMap) (acc : List (Nat × Tag)) :
    List SerTag → Except String (List (Nat × Tag))
  | [] => .ok acc
  | tag :: rest =>
    match tagMapGet map tag.id with
    | none => .error ("Encountered invalid tag Id " ++ toString tag.id)
    | some id => resolveTags templates map (btInsert id (templates.instantiate id) acc) rest

/-- Embeds `Task::with_serde` from `src/tasks.rs`. -/
def Task.with_serde (id : Nat) (task : SerTask) (templates : Templates) (map : TagMap) :
    Except String Task :=
  match resolveTags templates map [] task.tags with
  | .error e => .error e
  | .ok tags => .ok { id := id, summary := task.summary, tags := tags, templates := templates }

/-- Embeds `Task::to_serde` from `src/tasks.rs`: the summary together
with the tag-map values in key order, serialised. -/
def Task.to_serde (t : Task) : SerTask :=
  { summary := t.summary, tags := t.tags.map (fun p => p.2.to_serde) }

/-- Embeds `Task::is_complete` from `src/tasks.rs`. -/
def Task.is_complete (t : Task) : Bool :=
  btContains (t.templates.complete_tag.id) t.tags

/-- Embeds `Task::toggle_complete` from `src/tasks.rs`: remove the
completion tag if present, otherwise instantiate and insert it. -/
def Task.toggle_complete (t : Task) : Task :=
  let id := t.templates.complete_tag.id
  if btContains id t.tags then { t with tags := btRemove id t.tags }
  else { t with tags := btInsert id (t.templates.instantiate id) t.tags }

/-- Embeds the `Tasks` struct from `src/tasks.rs`. -/
structure Tasks where
  templates : Templates
  tasks : List Task
deriving DecidableEq

/-- Embeds the loop of `Tasks::with_serde` from `src/tasks.rs`; the id
allocator is threaded as an explicit counter, one fresh id per task. -/
def tasksFromSerde (templates : Templates) (map : TagMap) (gen : Nat) :
    List SerTask → Except String (List Task)
  | [] => .ok []
  | t :: rest =>
    match Task.with_serde gen t templates map with
    | .error e => .error e
    | .ok task =>
      match tasksFromSerde templates map (gen + 1) rest with
      | .error e => .error e
      | .ok tasks => .ok (task :: tasks)

/-- Embeds `Tasks::with_serde` from `src/tasks.rs` (`SerTasks` is the
tuple struct wrapping the serialised task vector). -/
def Tasks.with_serde (sts : List SerTask) (templates : Templates) (map : TagMap) (gen : Nat) :
    Except String Tasks :=
  match tasksFromSerde templates map gen sts with
  | .error e => .error e
  | .ok tasks => .ok { templates := templates, tasks := tasks }

/-- Embeds `Tasks::to_serde` from `src/tasks.rs`. -/
def Tasks.to_serde (ts : Tasks) : List SerTask :=
  ts.tasks.map Task.to_serde

/-- Embeds `Tasks::iter` from `src/tasks.rs`: iteration over the tasks
in storage order. -/
def Tasks.iter (ts : Tasks) : List Task :=
  ts.tasks

/-- Embeds `Tasks::add` from `src/tasks.rs`; the result carries the
updated collection, the returned id, and the advanced id counter. -/
def Tasks.add (ts : Tasks) (gen : Nat) (summary : String) (tags : List Tag) :
    Tasks × Nat × Nat :=
  let task := Task.with_summary_and_tags gen summary tags ts.templates
  ({ ts with tasks := ts.tasks ++ [task] }, task.id, gen + 1)

/-- Embeds `Tasks::remove` from `src/tasks.rs`; the `unwrap` on a
missing id panics, modelled by `none`. -/
def Tasks.remove (ts : Tasks) (id : Nat) : Option Tasks :=
  match position (fun x => x.id == id) ts.tasks with
  | none => none
  | some i => some { ts with tasks := ts.tasks.eraseIdx i }

/-- Embeds `Tasks::update` from `src/tasks.rs`; the `unwrap` on a
missing id panics, modelled by `none`. -/
def Tasks.update (ts : Tasks) (task : Task) : Option Tasks :=
  match position (fun x => x.id == task.id) ts.tasks with
  | none => none
  | some i => some { ts with tasks := ts.tasks.set i task }

/-- Invariant maintained by `BTreeMap`: keys strictly increasing. -/
def TagsSorted (l : List (Nat × Tag)) : Prop :=
  List.Pairwise (fun p q => p.1 < q.1) l

/-- Concrete template registry used by the example inputs. -/
def egTemplates : Templates :=
  { templates := [], complete := { id := 0, name := "c" } }

/-- Concrete task used by the example inputs. -/
def egTask3 : Task :=
  { id := 3, summary := "a", tags := [], templates := egTemplates }

/-- Concrete single-task collection used by the example inputs. -/
def egTasks : Tasks :=
  { templates := egTemplates, tasks := [egTask3] }

/-- Concrete replacement task used by the example inputs. -/
def egTask0 : Task :=
  { id := 0, summary := "", tags := [], templates := egTemplates }

/-- Validity of a stored tag map with respect to a validation map: the
map is sorted, each stored tag is the instantiation of its key, and
the key round-trips through the validation map. -/
def TagsValid (map : TagMap) (l : List (Nat × Tag)) : Prop :=
  TagsSorted l ∧ ∀ p ∈ l, p.2 = { id := p.1 } ∧ tagMapGet map p.1 = some p.1

/-- Helper describing the tasks produced by deserialising: same
summaries and tag sets, ids renumbered from the counter. -/
def renumber (templates : Templates) (gen : Nat) : List Task → List Task
  | [] => []
  | t :: rest =>
    { id := gen, summary := t.summary, tags := t.tags, templates := templates } ::
      renumber templates (gen + 1) rest

/-- Concrete task with one valid tag, for the example inputs. -/
def egTaggedTask : Task :=
  { id := 11, summary := "t", tags := [(4, { id := 4 })], templates := egTemplates }

/-- Concrete one-entry tag map, for the example inputs. -/
def egMap : TagMap := [(4, 4)]

/-- Modelled from the spec: `ser::tags::Template` from the missing
`ser/tags.rs` — a serialised tag definition `{id, name}`. -/
structure SerTemplate where
  id : Nat
  name : String
deriving DecidableEq

/-- Modelled from the spec: a serialised query descriptor from the
missing `query.rs`; the embedded core retains its name. -/
structure SerQuery where
  name : String
deriving DecidableEq

/-- Modelled from the spec: `ser::state::ProgState` from the missing
`ser/state.rs` — the persisted query definitions, defaulting to the
empty list when the document is absent. -/
structure SerProgState where
  queries : List SerQuery
deriving DecidableEq

/-- Modelled from the spec: `ser::state::TaskState` from the missing
`ser/state.rs` — templates plus tasks. -/
structure SerTaskState where
  templates : List SerTemplate
  tasks : List SerTask
deriving DecidableEq

/-- Modelled from the spec: `Templates::with_serde` from the missing
`tags.rs` — builds the registry (with the implicit completion-marker
template) and the validated id map from the serialised templates. -/
def Templates.with_serde (sts : List SerTemplate) : Templates × TagMap :=
  ({ templates := sts.map (fun st => { id := st.id, name := st.name }),
     complete := { id := 0, name := "complete" } },
   sts.map (fun st => (st.id, st.id)))

/-- Modelled from the spec: `Templates::to_serde` from the missing
`tags.rs`. -/
def Templates.to_serde (ts : Templates) : List SerTemplate :=
  ts.templates.map (fun t => { id := t.id, name := t.name })

/-- Modelled from the spec: a `Query` from the missing `query.rs`; the
embedded core retains the name (filtering is outside the embedded
scope). -/
structure Query where
  name : String
deriving DecidableEq

/-- Modelled from the spec: `QueryBuilder::build` from the missing
`query.rs`. -/
def QueryBuilder.build (name : String) : Query :=
  { name := name }

/-- Modelled from the spec: `Query::with_serde` from the missing
`query.rs`. -/
def Query.with_serde (q : SerQuery) : Except String Query :=
  .ok { name := q.name }

/-- Modelled from the spec: `Query::to_serde` from the missing
`query.rs`. -/
def Query.to_serde (q : Query) : SerQuery :=
  { name := q.name }

/-- Embeds the queries-loading loop of `State::with_serde` from
`src/state.rs`. -/
def queriesFromSerde : List SerQuery → Except String (List Query)
  | [] => .ok []
  | q :: rest =>
    match Query.with_serde q with
    | .error e => .error e
    | .ok query =>
      match queriesFromSerde rest with
      | .error e => .error e
      | .ok queries => .ok (query :: queries)

/-- Embeds the `State` struct from `src/state.rs` (the two file paths
are outside the embedded scope). -/
structure State where
  templates : Templates
  queries : List Query
  tasks : Tasks
deriving DecidableEq

/-- Embeds `State::with_serde` from `src/state.rs`: build the registry
and tag map, construct the task collection (fail-fast), then the
implicit "all" query followed by the persisted queries. -/
def State.with_serde (prog : SerProgState) (task : SerTaskState) (gen : Nat) :
    Except String State :=
  match Tasks.with_serde task.tasks (Templates.with_serde task.templates).1
      (Templates.with_serde task.templates).2 gen with
  | .error e => .error e
  | .ok tasks =>
    match queriesFromSerde prog.queries with
    | .error e => .error e
    | .ok qs =>
      .ok { templates := (Templates.with_serde task.templates).1,
            queries := QueryBuilder.build "all" :: qs,
            tasks := tasks }

/-- Embeds the outcome of `File::open` plus `serde_json::from_reader`
in `State::load_state`: the file may be missing (`NotFound`), fail with
another I/O error, or be opened and parsed. -/
inductive LoadInput (α : Type) where
  | missing
  | openErr (e : String)
  | parsed (r : Except String α)

/-- Embeds `State::load_state` from `src/state.rs`: a missing file
yields the default document; any other failure propagates unchanged. -/
def load_state {α : Type} (dflt : α) : LoadInput α → Except String α
  | .missing => .ok dflt
  | .openErr e => .error e
  | .parsed r => r

/-- Embeds `State::new` from `src/state.rs`: load both documents (with
their `Default` values for missing files), then construct the state. -/
def State.new_from (progIn : LoadInput SerProgState) (taskIn : LoadInput SerTaskState)
    (gen : Nat) : Except String State :=
  match load_state { queries := [] } progIn with
  | .error e => .error e
  | .ok prog =>
    match load_state { templates := [], tasks := [] } taskIn with
    | .error e => .error e
    | .ok task => State.with_serde prog task gen

/-- Embeds `State::to_serde` from `src/state.rs`: every query except
the implicit first one, plus templates and tasks. -/
def State.to_serde (st : State) : SerProgState × SerTaskState :=
  ({ queries := (st.queries.drop 1).map Query.to_serde },
   { templates := st.templates.to_serde, tasks := st.tasks.to_serde })

/- Arithmetic facts about `modulo`. -/

theorem tmod_emod (x y : Int) : (x.tmod y) % y = x % y := by
  rw [Int.tmod_def]
  have h := Int.add_mul_emod_self_left x y (-(x.tdiv y))
  calc (x - y * x.tdiv y) % y = (x + y * -(x.tdiv y)) % y := by ring_nf
    _ = x % y := h

theorem tmod_add_self_nonneg (x y : Int) (hy : 0 < y) : 0 ≤ x.tmod y + y := by
  rcases le_or_lt 0 x with hx | hx
  · have h := Int.tmod_nonneg y hx
    linarith
  · have hnx : (0 : Int) ≤ -x := by linarith
    have h1 : (-x).tmod y < y := Int.tmod_lt_of_pos (-x) hy
    have h2 : (-x).tmod y = -(x.tmod y) := by
      rw [Int.tmod_def, Int.tmod_def, Int.neg_tdiv]
      ring
    rw [h2] at h1
    linarith

/-- For a positive modulus, `modulo` computes the mathematical
(Euclidean) modulo. -/
theorem modulo_eq_emod (x y : Int) (hy : 0 < y) : modulo x y = x % y := by
  unfold modulo
  have h1 : ((x.tmod y) + y).tmod y = ((x.tmod y) + y) % y :=
    Int.tmod_eq_emod (tmod_add_self_nonneg x y hy) (le_of_lt hy)
  rw [h1]
  have h2 : ((x.tmod y) + y) % y = (x.tmod y) % y := by
    have h := Int.add_mul_emod_self_left (x.tmod y) y 1
    calc ((x.tmod y) + y) % y = ((x.tmod y) + y * 1) % y := by ring_nf
      _ = (x.tmod y) % y := h
  rw [h2, tmod_emod]

theorem modulo_nonneg (x y : Int) (hy : 0 < y) : 0 ≤ modulo x y := by
  rw [modulo_eq_emod x y hy]
  exact Int.emod_nonneg x (by linarith)

/- Behaviour of iterated advancement. -/

theorem advanceN_forward {T : Type} (s : SelectionState T) (k : Nat) (h : s.reversed = false) :
    s.advanceN k = { s with advanced := s.advanced + k, total := s.total + k } := by
  induction k with
  | zero => simp [SelectionState.advanceN]
  | succ n ih =>
    rw [SelectionState.advanceN, ih]
    simp only [SelectionState.advance, h]
    norm_num
    refine ⟨by ring, by ring⟩

theorem advanceN_backward {T : Type} (s : SelectionState T) (k : Nat) (h : s.reversed = true) :
    s.advanceN k = { s with advanced := s.advanced - k, total := s.total - k } := by
  induction k with
  | zero => simp [SelectionState.advanceN]
  | succ n ih =>
    rw [SelectionState.advanceN, ih]
    simp only [SelectionState.advance, h]
    norm_num
    refine ⟨by ring, by ring⟩

theorem position_eq_none {T : Type} [DecidableEq T] (key : T) (l : List T) (h : key ∉ l) :
    position (fun x => x == key) l = none := by
  induction l with
  | nil => rfl
  | cons a rest ih =>
    simp only [position]
    have ha : (a == key) = false := by
      simp only [beq_eq_false_iff_ne]
      intro e
      exact h (by rw [e]; exact List.mem_cons_self _ _)
    simp only [ha, Bool.false_eq_true, if_false]
    rw [ih (fun hm => h (List.mem_cons_of_mem _ hm))]
    rfl

/-- Unfolding lemma for `normalize` when the index resolves and the
sequence is non-empty. -/
theorem normalize_spec {T : Type} [DecidableEq T] (st : SelectionState T) (l : List T) (s : Nat)
    (hidx : st.selection.index l = some s) (hN : 0 < l.length) :
    st.normalize l =
      some ((modulo ((s : Int) + st.advanced) ((l.length : Int))).toNat,
        { st with
          selection := .Normalized ((modulo ((s : Int) + st.advanced) ((l.length : Int))).toNat),
          advanced := 0 }) := by
  unfold SelectionState.normalize
  rw [hidx]
  simp only [if_neg (Nat.pos_iff_ne_zero.mp hN)]

/-- C1: after `k` forward (non-reversed) `advance()` calls accumulated
since the last normalize, with the anchor resolving to start index `s`
in an `N`-element sequence (`N > 0`), `normalize` returns
`(s + k) mod N` — which is non-negative — stores that index as the new
`Normalized` anchor, and resets the pending `advanced` delta to zero. -/
theorem c1_normalize_forward {T : Type} [DecidableEq T] (st : SelectionState T) (l : List T)
    (k s : Nat) (hrev : st.reversed = false) (hadv : st.advanced = 0)
    (hidx : st.selection.index l = some s) (hN : 0 < l.length) :
    (st.advanceN k).normalize l =
      some ((s + k) % l.length,
        { st with selection := .Normalized ((s + k) % l.length), advanced := 0,
                  total := st.total + k }) ∧
    0 ≤ modulo ((s : Int) + (k : Int)) ((l.length : Int)) := by
  have hNi : (0 : Int) < (l.length : Int) := by exact_mod_cast hN
  have hmod : modulo ((s : Int) + (k : Int)) ((l.length : Int)) =
      (((s + k) % l.length : Nat) : Int) := by
    rw [modulo_eq_emod _ _ hNi]
    push_cast
    ring_nf
  refine ⟨?_, by rw [hmod]; exact Int.natCast_nonneg _⟩
  rw [advanceN_forward st k hrev]
  have hidx2 : ({ st with advanced := st.advanced + k, total := st.total + k } :
      SelectionState T).selection.index l = some s := hidx
  rw [normalize_spec _ l s hidx2 hN]
  dsimp only
  rw [hadv, zero_add, hmod, Int.toNat_natCast]

/-- C1 witness at a concrete input. -/
theorem c1_normalize_forward_witness :
    ((SelectionState.new 5).advanceN 4).normalize [5, 6, 7] =
      some (1, { selection := .Normalized 1, reversed := false, advanced := 0, total := 4 }) ∧
    0 ≤ modulo ((0 : Int) + (4 : Int)) ((3 : Int)) :=
  c1_normalize_forward (SelectionState.new 5) [5, 6, 7] 4 0 rfl rfl rfl (by decide)

/-- C2: `has_cycled N` is true exactly when the absolute cumulative
total strictly exceeds `N`; `reset_cycled` zeroes `total`, leaves all
other fields untouched, and afterwards `has_cycled N` is false. -/
theorem c2_has_cycled_spec {T : Type} (st : SelectionState T) (N : Nat) :
    (st.has_cycled N = true ↔ N < st.total.natAbs) ∧
    st.reset_cycled.has_cycled N = false ∧
    st.reset_cycled.total = 0 ∧
    st.reset_cycled.selection = st.selection ∧
    st.reset_cycled.reversed = st.reversed ∧
    st.reset_cycled.advanced = st.advanced := by
  refine ⟨by simp [SelectionState.has_cycled], ?_, rfl, rfl, rfl, rfl⟩
  simp [SelectionState.reset_cycled, SelectionState.has_cycled]

/-- C3: `k` forward advances, then `reverse(true)`, then `k` further
advances cancel out: `normalize` returns the original start index `s`. -/
theorem c3_reverse_cancels {T : Type} [DecidableEq T] (st : SelectionState T) (l : List T)
    (k s : Nat) (hrev : st.reversed = false) (hadv : st.advanced = 0)
    (hidx : st.selection.index l = some s) (hs : s < l.length) :
    (((st.advanceN k).reverse true).advanceN k).normalize l =
      some (s, { st with selection := .Normalized s, reversed := true, advanced := 0 }) := by
  have hN : 0 < l.length := lt_of_le_of_lt (Nat.zero_le s) hs
  have hNi : (0 : Int) < (l.length : Int) := by exact_mod_cast hN
  rw [advanceN_forward st k hrev]
  rw [show (({ st with advanced := st.advanced + k, total := st.total + k } :
      SelectionState T).reverse true) =
    { st with reversed := true, advanced := st.advanced + k, total := st.total + k } from rfl]
  rw [advanceN_backward _ k rfl]
  dsimp only
  have hidx2 : ({ st with
      reversed := true,
      advanced := st.advanced + k - k,
      total := st.total + k - k } : SelectionState T).selection.index l = some s :=
    hidx
  rw [normalize_spec _ l s hidx2 hN]
  dsimp only
  rw [hadv]
  have harith : ((s : Int) + (0 + (k : Int) - (k : Int))) = (s : Int) := by ring
  rw [harith]
  have hmod : modulo ((s : Int)) ((l.length : Int)) = (s : Int) := by
    rw [modulo_eq_emod _ _ hNi]
    exact Int.emod_eq_of_lt (Int.natCast_nonneg s) (by exact_mod_cast hs)
  rw [hmod, Int.toNat_natCast]
  have htot : st.total + (k : Int) - (k : Int) = st.total := by ring
  rw [htot]

/-- C3 witness at a concrete input. -/
theorem c3_reverse_cancels_witness :
    ((((SelectionState.new 6).advanceN 2).reverse true).advanceN 2).normalize [5, 6, 7] =
      some (1, { selection := .Normalized 1, reversed := true, advanced := 0, total := 0 }) :=
  c3_reverse_cancels (SelectionState.new 6) [5, 6, 7] 2 1 rfl rfl rfl (by decide)

/-- C10: `normalize` is partial — it panics (modelled as `none`) on an
empty sequence, and on an unresolved `Start` anchor whose key is not an
element of the sequence. -/
theorem c10_normalize_panics (T : Type) [DecidableEq T] :
    (∀ st : SelectionState T, st.normalize ([] : List T) = none) ∧
    (∀ (st : SelectionState T) (key : T) (l : List T),
      st.selection = .Start key → key ∉ l → st.normalize l = none) := by
  constructor
  · intro st
    unfold SelectionState.normalize
    cases hsel : st.selection with
    | Start key => simp [Selection.index, position]
    | Normalized idx => simp [Selection.index]
  · intro st key l hsel hmem
    unfold SelectionState.normalize
    rw [hsel]
    simp only [Selection.index]
    rw [position_eq_none key l hmem]

/-- C10 witness at a concrete input. -/
theorem c10_normalize_panics_witness :
    (SelectionState.new 1).normalize [2, 3] = none :=
  (c10_normalize_panics Nat).2 (SelectionState.new 1) 1 [2, 3] rfl (by decide)

theorem btContains_false (k : Nat) (l : List (Nat × Tag)) :
    btContains k l = false ↔ ∀ p ∈ l, p.1 ≠ k := by
  induction l with
  | nil => simp [btContains]
  | cons q rest ih =>
    simp only [btContains, Bool.or_eq_false_iff, beq_eq_false_iff_ne, ih, List.mem_cons]
    constructor
    · rintro ⟨h1, h2⟩ p hp
      rcases hp with rfl | hp
      · exact h1
      · exact h2 p hp
    · intro h
      exact ⟨h q (Or.inl rfl), fun p hp => h p (Or.inr hp)⟩

theorem btContains_true (k : Nat) (l : List (Nat × Tag)) :
    btContains k l = true ↔ ∃ v, (k, v) ∈ l := by
  induction l with
  | nil => simp [btContains]
  | cons q rest ih =>
    obtain ⟨qk, qv⟩ := q
    simp only [btContains, Bool.or_eq_true, beq_iff_eq, ih, List.mem_cons]
    constructor
    · rintro (h | ⟨v, hv⟩)
      · exact ⟨qv, Or.inl (by rw [h])⟩
      · exact ⟨v, Or.inr hv⟩
    · rintro ⟨v, hv | hv⟩
      · left
        rw [Prod.mk.injEq] at hv
        exact hv.1.symm
      · right
        exact ⟨v, hv⟩

theorem btInsert_prepend (k : Nat) (v : Tag) (l : List (Nat × Tag))
    (h : ∀ p ∈ l, k < p.1) : btInsert k v l = (k, v) :: l := by
  cases l with
  | nil => rfl
  | cons q rest =>
    unfold btInsert
    rw [if_pos (h q (List.mem_cons_self _ _))]

theorem btInsert_append (k : Nat) (v : Tag) (l : List (Nat × Tag))
    (h : ∀ p ∈ l, p.1 < k) : btInsert k v l = l ++ [(k, v)] := by
  induction l with
  | nil => rfl
  | cons q rest ih =>
    have hq : q.1 < k := h q (List.mem_cons_self _ _)
    unfold btInsert
    rw [if_neg (by omega), if_neg (by omega)]
    rw [ih (fun p hp => h p (List.mem_cons_of_mem _ hp))]
    rfl

theorem btRemove_btInsert (k : Nat) (v : Tag) (l : List (Nat × Tag))
    (h : btContains k l = false) : btRemove k (btInsert k v l) = l := by
  induction l with
  | nil => simp [btInsert, btRemove]
  | cons q rest ih =>
    have hq : q.1 ≠ k ∧ btContains k rest = false := by
      have h2 := h
      simp only [btContains, Bool.or_eq_false_iff, beq_eq_false_iff_ne] at h2
      exact h2
    unfold btInsert
    by_cases h1 : k < q.1
    · rw [if_pos h1]
      simp [btRemove]
    · rw [if_neg h1, if_neg (fun e => hq.1 e.symm)]
      unfold btRemove
      rw [if_neg hq.1, ih hq.2]

theorem btInsert_btRemove (k : Nat) (v : Tag) (l : List (Nat × Tag))
    (hs : TagsSorted l) (hm : (k, v) ∈ l) : btInsert k v (btRemove k l) = l := by
  induction l with
  | nil => cases hm
  | cons q rest ih =>
    rw [TagsSorted, List.pairwise_cons] at hs
    rcases List.mem_cons.mp hm with heq | hmem
    · subst heq
      simp only [btRemove, if_pos rfl]
      exact btInsert_prepend k v rest hs.1
    · have hqk : q.1 < k := hs.1 (k, v) hmem
      simp only [btRemove, if_neg (by omega : ¬q.1 = k)]
      unfold btInsert
      rw [if_neg (by omega), if_neg (by omega)]
      rw [ih hs.2 hmem]

theorem btContains_btRemove (k : Nat) (l : List (Nat × Tag)) (hs : TagsSorted l) :
    btContains k (btRemove k l) = false := by
  induction l with
  | nil => rfl
  | cons q rest ih =>
    rw [TagsSorted, List.pairwise_cons] at hs
    by_cases hq : q.1 = k
    · simp only [btRemove, if_pos hq]
      rw [btContains_false]
      intro p hp
      have := hs.1 p hp
      omega
    · simp only [btRemove, if_neg hq]
      simp only [btContains, Bool.or_eq_false_iff, beq_eq_false_iff_ne]
      exact ⟨hq, ih hs.2⟩

theorem btContains_btInsert (k : Nat) (v : Tag) (l : List (Nat × Tag)) :
    btContains k (btInsert k v l) = true := by
  induction l with
  | nil => simp [btInsert, btContains]
  | cons q rest ih =>
    unfold btInsert
    by_cases h1 : k < q.1
    · rw [if_pos h1]
      simp [btContains]
    · by_cases h2 : k = q.1
      · rw [if_neg h1, if_pos h2]
        simp [btContains]
      · rw [if_neg h1, if_neg h2]
        simp [btContains, ih]

/-- C6: `toggle_complete` is self-inverse on a well-formed task (tag
map sorted, each stored tag the instantiation of its key): applying it
twice restores the task exactly, a single application flips
`is_complete` and acts as XOR on the completion tag — removing it when
present and inserting it when absent. -/
theorem c6_toggle_complete (t : Task) (hsort : TagsSorted t.tags)
    (hvals : ∀ p ∈ t.tags, p.2 = { id := p.1 }) :
    t.toggle_complete.toggle_complete = t ∧
    t.toggle_complete.is_complete = !t.is_complete ∧
    (t.is_complete = true →
      t.toggle_complete.tags = btRemove t.templates.complete_tag.id t.tags) ∧
    (t.is_complete = false →
      t.toggle_complete.tags = btInsert t.templates.complete_tag.id
        (t.templates.instantiate t.templates.complete_tag.id) t.tags) := by
  obtain ⟨tid, tsum, ttags, ttpl⟩ := t
  by_cases hc : btContains ttpl.complete_tag.id ttags
  · obtain ⟨v, hv⟩ := (btContains_true _ _).mp hc
    have hvv : v = { id := ttpl.complete_tag.id } := hvals _ hv
    subst hvv
    have hc1 : btContains ttpl.complete_tag.id
        (btRemove ttpl.complete_tag.id ttags) = false :=
      btContains_btRemove _ _ hsort
    have e1 : (Task.mk tid tsum ttags ttpl).toggle_complete =
        Task.mk tid tsum (btRemove ttpl.complete_tag.id ttags) ttpl := by
      simp only [Task.toggle_complete, hc, if_true]
    have e2 : (Task.mk tid tsum (btRemove ttpl.complete_tag.id ttags) ttpl).toggle_complete =
        Task.mk tid tsum
          (btInsert ttpl.complete_tag.id { id := ttpl.complete_tag.id }
            (btRemove ttpl.complete_tag.id ttags)) ttpl := by
      simp only [Task.toggle_complete, hc1, Bool.false_eq_true, if_false, Templates.instantiate]
    refine ⟨?_, ?_, ?_, ?_⟩
    · rw [e1, e2, btInsert_btRemove _ _ _ hsort hv]
    · rw [e1]
      show btContains ttpl.complete_tag.id (btRemove ttpl.complete_tag.id ttags) =
        !(btContains ttpl.complete_tag.id ttags)
      rw [hc1, hc]
      rfl
    · intro h2
      rw [e1]
    · intro hf
      have : btContains ttpl.complete_tag.id ttags = false := hf
      rw [hc] at this
      cases this
  · have hcf : btContains ttpl.complete_tag.id ttags = false := by
      simpa using hc
    have hc1 : btContains ttpl.complete_tag.id
        (btInsert ttpl.complete_tag.id { id := ttpl.complete_tag.id } ttags) = true :=
      btContains_btInsert _ _ _
    have e1 : (Task.mk tid tsum ttags ttpl).toggle_complete =
        Task.mk tid tsum
          (btInsert ttpl.complete_tag.id { id := ttpl.complete_tag.id } ttags) ttpl := by
      simp only [Task.toggle_complete, hcf, Bool.false_eq_true, if_false, Templates.instantiate]
    have e2 : (Task.mk tid tsum
        (btInsert ttpl.complete_tag.id { id := ttpl.complete_tag.id } ttags) ttpl).toggle_complete =
        Task.mk tid tsum
          (btRemove ttpl.complete_tag.id
            (btInsert ttpl.complete_tag.id { id := ttpl.complete_tag.id } ttags)) ttpl := by
      simp only [Task.toggle_complete, hc1, if_true]
    refine ⟨?_, ?_, ?_, ?_⟩
    · rw [e1, e2, btRemove_btInsert _ _ _ hcf]
    · rw [e1]
      show btContains ttpl.complete_tag.id
          (btInsert ttpl.complete_tag.id { id := ttpl.complete_tag.id } ttags) =
        !(btContains ttpl.complete_tag.id ttags)
      rw [hc1, hcf]
      rfl
    · intro ht
      have : btContains ttpl.complete_tag.id ttags = true := ht
      rw [hcf] at this
      cases this
    · intro h2
      rw [e1]
      rfl

/-- C6 witness at a concrete input. -/
theorem c6_toggle_complete_witness :
    (TagsSorted ([(2, { id := 2 }), (5, { id := 5 })] : List (Nat × Tag))) ∧
    ({ id := 9, summary := "w",
       tags := [(2, { id := 2 }), (5, { id := 5 })],
       templates := { templates := [{ id := 5, name := "done" }],
                      complete := { id := 5, name := "done" } } } :
        Task).toggle_complete.toggle_complete =
      { id := 9, summary := "w",
        tags := [(2, { id := 2 }), (5, { id := 5 })],
        templates := { templates := [{ id := 5, name := "done" }],
                       complete := { id := 5, name := "done" } } } := by
  constructor
  · unfold TagsSorted
    decide
  · exact (c6_toggle_complete _ (by unfold TagsSorted; decide) (by decide)).1

/- Facts about `position` and list surgery, for the collection
operations. -/

theorem position_none_iff {T : Type} (p : T → Bool) (l : List T) :
    position p l = none ↔ ∀ x ∈ l, p x = false := by
  induction l with
  | nil => simp [position]
  | cons a rest ih =>
    by_cases ha : p a
    · simp [position, ha]
    · simp [position, ha, Option.map_eq_none', ih]

theorem position_some {T : Type} (p : T → Bool) (l : List T) (i : Nat)
    (h : position p l = some i) :
    ∃ hi : i < l.length, p (l.get ⟨i, hi⟩) = true ∧
      ∀ j (hj : j < i) (hj2 : j < l.length), p (l.get ⟨j, hj2⟩) = false := by
  induction l generalizing i with
  | nil => cases h
  | cons a rest ih =>
    by_cases ha : p a
    · simp only [position, ha, if_true, Option.some.injEq] at h
      subst h
      refine ⟨by simp, by simpa using ha, ?_⟩
      intro j hj hj2
      omega
    · simp only [position, ha, Bool.false_eq_true, if_false, Option.map_eq_some'] at h
      obtain ⟨i2, hi2, hplus⟩ := h
      subst hplus
      obtain ⟨hlt, hp, hprev⟩ := ih i2 hi2
      refine ⟨by simpa using Nat.succ_lt_succ hlt, by simpa using hp, ?_⟩
      intro j hj hj2
      cases j with
      | zero => simpa using ha
      | succ jj =>
        have hjj : jj < i2 := by omega
        have hjj2 : jj < rest.length := by simpa using hj2
        simpa using hprev jj hjj hjj2

theorem position_of_mem {T : Type} (p : T → Bool) (l : List T) (x : T)
    (hx : x ∈ l) (hp : p x = true) : ∃ i, position p l = some i := by
  induction l with
  | nil => cases hx
  | cons a rest ih =>
    by_cases ha : p a
    · exact ⟨0, by simp [position, ha]⟩
    · rcases List.mem_cons.mp hx with rfl | hmem
      · rw [hp] at ha
        cases ha rfl
      · obtain ⟨i, hi⟩ := ih hmem
        exact ⟨i + 1, by simp [position, ha, hi]⟩

theorem eraseIdx_eq_take_drop {T : Type} (l : List T) (i : Nat) :
    l.eraseIdx i = l.take i ++ l.drop (i + 1) := by
  induction l generalizing i with
  | nil => simp [List.eraseIdx]
  | cons a rest ih =>
    cases i with
    | zero => simp [List.eraseIdx]
    | succ n => simp [List.eraseIdx, ih]

/-- C7: `add` appends exactly one new task at the end, leaves all
previously present tasks unchanged in their order, and returns the id
of the newly created task; iteration visits the tasks in strict
insertion order. -/
theorem c7_add_appends (ts : Tasks) (gen : Nat) (summary : String) (tags : List Tag) :
    (ts.add gen summary tags).1.tasks =
      ts.tasks ++ [Task.with_summary_and_tags gen summary tags ts.templates] ∧
    (ts.add gen summary tags).1.tasks.length = ts.tasks.length + 1 ∧
    (ts.add gen summary tags).1.tasks.take ts.tasks.length = ts.tasks ∧
    ((ts.add gen summary tags).1.tasks.getLast?.map Task.id) =
      some ((ts.add gen summary tags).2.1) ∧
    (ts.add gen summary tags).1.iter = (ts.add gen summary tags).1.tasks := by
  refine ⟨rfl, by simp [Tasks.add], by simp [Tasks.add, List.take_left], ?_, rfl⟩
  show ((ts.tasks ++ [Task.with_summary_and_tags gen summary tags ts.templates]).getLast?.map
    Task.id) = some (Task.with_summary_and_tags gen summary tags ts.templates).id
  rw [List.getLast?_concat]
  rfl

/-- C8: `remove` and `update` locate the target by linear scan for a
matching id; with a match at first position `i` they erase exactly the
task at `i` (remove) or replace exactly the task at `i` (update),
leaving all other tasks unchanged in order; with no matching id they
panic (modelled as `none`) rather than succeed silently. -/
theorem c8_remove_update (ts : Tasks) (id : Nat) (task : Task) :
    ((∀ t ∈ ts.tasks, t.id ≠ id) → ts.remove id = none) ∧
    ((∀ t ∈ ts.tasks, t.id ≠ task.id) → ts.update task = none) ∧
    ((∃ t ∈ ts.tasks, t.id = id) →
      ∃ i, position (fun x => x.id == id) ts.tasks = some i) ∧
    (∀ i, position (fun x => x.id == id) ts.tasks = some i →
      ∃ hi : i < ts.tasks.length,
        (ts.tasks.get ⟨i, hi⟩).id = id ∧
        (∀ j (hj : j < i) (hj2 : j < ts.tasks.length), (ts.tasks.get ⟨j, hj2⟩).id ≠ id) ∧
        ts.remove id = some { ts with tasks := ts.tasks.take i ++ ts.tasks.drop (i + 1) }) ∧
    (∀ i, position (fun x => x.id == task.id) ts.tasks = some i →
      ts.update task = some { ts with tasks := ts.tasks.set i task }) := by
  refine ⟨?_, ?_, ?_, ?_, ?_⟩
  · intro h
    unfold Tasks.remove
    rw [(position_none_iff _ _).mpr (fun x hx => by simpa using h x hx)]
  · intro h
    unfold Tasks.update
    rw [(position_none_iff _ _).mpr (fun x hx => by simpa using h x hx)]
  · rintro ⟨t, ht, hid⟩
    exact position_of_mem _ _ t ht (by simpa using hid)
  · intro i hi
    obtain ⟨hlt, hp, hprev⟩ := position_some _ _ i hi
    refine ⟨hlt, by simpa using hp, ?_, ?_⟩
    · intro j hj hj2
      simpa using hprev j hj hj2
    · unfold Tasks.remove
      rw [hi]
      simp only [eraseIdx_eq_take_drop]
  · intro i hi
    unfold Tasks.update
    rw [hi]

/-- C8 witness at a concrete input. -/
theorem c8_remove_update_witness :
    egTasks.remove 7 = none ∧
    egTasks.remove 3 = some { templates := egTemplates, tasks := [] } := by
  constructor
  · exact (c8_remove_update egTasks 7 egTask0).1 (by decide)
  · have h := (c8_remove_update egTasks 3 egTask0).2.2.2.1 0 rfl
    obtain ⟨h1, h2, h3, h4⟩ := h
    exact h4

theorem renumber_length (templates : Templates) (gen : Nat) (l : List Task) :
    (renumber templates gen l).length = l.length := by
  induction l generalizing gen with
  | nil => rfl
  | cons t rest ih => simp [renumber, ih]

theorem renumber_get (templates : Templates) (gen : Nat) (l : List Task) (i : Nat)
    (hi : i < l.length) (hi2 : i < (renumber templates gen l).length) :
    ((renumber templates gen l).get ⟨i, hi2⟩).summary = (l.get ⟨i, hi⟩).summary ∧
    ((renumber templates gen l).get ⟨i, hi2⟩).tags = (l.get ⟨i, hi⟩).tags := by
  induction l generalizing gen i with
  | nil => cases hi
  | cons t rest ih =>
    cases i with
    | zero => exact ⟨rfl, rfl⟩
    | succ n =>
      have hn : n < rest.length := by simpa using hi
      have hn2 : n < (renumber templates (gen + 1) rest).length := by
        simpa [renumber] using hi2
      exact ih (gen + 1) n hn hn2

theorem resolveTags_ok (templates : Templates) (map : TagMap) (acc rest : List (Nat × Tag))
    (hsorted : TagsSorted (acc ++ rest))
    (hv : ∀ p ∈ rest, p.2 = { id := p.1 } ∧ tagMapGet map p.1 = some p.1) :
    resolveTags templates map acc (rest.map (fun p => p.2.to_serde)) = .ok (acc ++ rest) := by
  induction rest generalizing acc with
  | nil => simp [resolveTags]
  | cons q rest2 ih =>
    obtain ⟨hq1, hq2⟩ := hv q (List.mem_cons_self _ _)
    have hcross : ∀ p ∈ acc, p.1 < q.1 := by
      have h := (List.pairwise_append.mp hsorted).2.2
      exact fun p hp => h p hp q (List.mem_cons_self _ _)
    have hidq : q.2.to_serde.id = q.1 := by
      rw [hq1]
      rfl
    simp only [List.map_cons, resolveTags, hidq, hq2]
    have hins : btInsert q.1 (templates.instantiate q.1) acc = acc ++ [q] := by
      rw [btInsert_append q.1 _ acc hcross]
      have hpair : (q.1, templates.instantiate q.1) = q := by
        have hval : templates.instantiate q.1 = q.2 := by
          rw [hq1]
          rfl
        rw [hval]
      rw [hpair]
    rw [hins]
    have hsorted2 : TagsSorted ((acc ++ [q]) ++ rest2) := by
      rw [List.append_assoc, List.singleton_append]
      exact hsorted
    have hv2 : ∀ p ∈ rest2, p.2 = { id := p.1 } ∧ tagMapGet map p.1 = some p.1 :=
      fun p hp => hv p (List.mem_cons_of_mem _ hp)
    rw [ih (acc ++ [q]) hsorted2 hv2, List.append_assoc, List.singleton_append]

theorem task_roundtrip (gen : Nat) (t : Task) (templates : Templates) (map : TagMap)
    (hv : TagsValid map t.tags) :
    Task.with_serde gen t.to_serde templates map =
      .ok { id := gen, summary := t.summary, tags := t.tags, templates := templates } := by
  unfold Task.with_serde Task.to_serde
  rw [resolveTags_ok templates map [] t.tags hv.1 hv.2]
  rfl

theorem tasksFromSerde_roundtrip (templates : Templates) (map : TagMap) (gen : Nat)
    (l : List Task) (hv : ∀ t ∈ l, TagsValid map t.tags) :
    tasksFromSerde templates map gen (l.map Task.to_serde) =
      .ok (renumber templates gen l) := by
  induction l generalizing gen with
  | nil => rfl
  | cons t rest ih =>
    simp only [List.map_cons, tasksFromSerde]
    rw [task_roundtrip gen t templates map (hv t (List.mem_cons_self _ _))]
    rw [ih (gen + 1) (fun x hx => hv x (List.mem_cons_of_mem _ hx))]
    rfl

/-- C4: serialising a task collection with `to_serde` and rebuilding it
with `with_serde` against the same template registry and tag map yields
a collection with the same number of tasks in the same order, each with
equal summary and equal tag set (ids are regenerated). -/
theorem c4_tasks_roundtrip (ts : Tasks) (map : TagMap) (gen : Nat)
    (hv : ∀ t ∈ ts.tasks, TagsValid map t.tags) :
    ∃ ts2, Tasks.with_serde ts.to_serde ts.templates map gen = .ok ts2 ∧
      ts2.tasks.length = ts.tasks.length ∧
      ∀ i (hi : i < ts.tasks.length) (hi2 : i < ts2.tasks.length),
        (ts2.tasks.get ⟨i, hi2⟩).summary = (ts.tasks.get ⟨i, hi⟩).summary ∧
        (ts2.tasks.get ⟨i, hi2⟩).tags = (ts.tasks.get ⟨i, hi⟩).tags := by
  refine ⟨{ templates := ts.templates, tasks := renumber ts.templates gen ts.tasks }, ?_, ?_, ?_⟩
  · unfold Tasks.with_serde Tasks.to_serde
    rw [tasksFromSerde_roundtrip ts.templates map gen ts.tasks hv]
  · exact renumber_length _ _ _
  · exact fun i hi hi2 => renumber_get ts.templates gen ts.tasks i hi hi2

/-- C4 witness at a concrete input. -/
theorem c4_tasks_roundtrip_witness :
    ∃ ts2, Tasks.with_serde
        (Tasks.to_serde { templates := egTemplates, tasks := [egTaggedTask] })
        egTemplates egMap 0 = .ok ts2 ∧
      ts2.tasks.length = 1 ∧
      ∀ i (hi : i < 1) (hi2 : i < ts2.tasks.length),
        (ts2.tasks.get ⟨i, hi2⟩).summary =
          (([egTaggedTask] : List Task).get ⟨i, hi⟩).summary ∧
        (ts2.tasks.get ⟨i, hi2⟩).tags = (([egTaggedTask] : List Task).get ⟨i, hi⟩).tags := by
  have h := c4_tasks_roundtrip { templates := egTemplates, tasks := [egTaggedTask] } egMap 0
    (by
      intro t ht
      have : t = egTaggedTask := by simpa using ht
      subst this
      constructor
      · unfold TagsSorted
        decide
      · decide)
  exact h

/-- C9: a missing file loads as the default empty document while any
other I/O or parse failure propagates unchanged; loading with both
documents absent yields a state with zero tasks and exactly the one
implicit "all" query, which `to_serde` (used by save) never persists. -/
theorem c9_state_load (gen : Nat) :
    (∀ (α : Type) (d : α), load_state d (.missing : LoadInput α) = .ok d) ∧
    (∀ (α : Type) (d : α) (e : String), load_state d (.openErr e : LoadInput α) = .error e) ∧
    (∀ (α : Type) (d : α) (r : Except String α), load_state d (.parsed r) = r) ∧
    State.new_from .missing .missing gen =
      .ok ⟨(Templates.with_serde []).1, [QueryBuilder.build "all"],
           ⟨(Templates.with_serde []).1, []⟩⟩ ∧
    (State.to_serde ⟨(Templates.with_serde []).1, [QueryBuilder.build "all"],
        ⟨(Templates.with_serde []).1, []⟩⟩).1.queries = [] ∧
    (⟨(Templates.with_serde []).1, [QueryBuilder.build "all"],
        ⟨(Templates.with_serde []).1, []⟩⟩ : State).tasks.tasks = [] := by
  exact ⟨fun α d => rfl, fun α d e => rfl, fun α d r => rfl, rfl, rfl, rfl⟩

theorem resolveTags_invalid (templates : Templates) (map : TagMap) (acc : List (Nat × Tag))
    (sts : List SerTag) (h : ∃ st ∈ sts, tagMapGet map st.id = none) :
    ∃ tid, (∃ st ∈ sts, st.id = tid ∧ tagMapGet map tid = none) ∧
      resolveTags templates map acc sts =
        .error ("Encountered invalid tag Id " ++ toString tid) := by
  induction sts generalizing acc with
  | nil =>
    obtain ⟨st, h1, h2⟩ := h
    cases h1
  | cons q rest ih =>
    cases hq : tagMapGet map q.id with
    | none =>
      refine ⟨q.id, ⟨q, List.mem_cons_self _ _, rfl, hq⟩, ?_⟩
      simp [resolveTags, hq]
    | some v =>
      have hrest : ∃ st ∈ rest, tagMapGet map st.id = none := by
        obtain ⟨st, hst, hnone⟩ := h
        rcases List.mem_cons.mp hst with rfl | hm
        · rw [hq] at hnone
          cases hnone
        · exact ⟨st, hm, hnone⟩
      obtain ⟨tid, ⟨st, hst, hstid, hnone⟩, herr⟩ :=
        ih (btInsert v (templates.instantiate v) acc) hrest
      refine ⟨tid, ⟨st, List.mem_cons_of_mem _ hst, hstid, hnone⟩, ?_⟩
      simp [resolveTags, hq, herr]

theorem resolveTags_total (templates : Templates) (map : TagMap) (acc : List (Nat × Tag))
    (sts : List SerTag) (h : ∀ st ∈ sts, ∃ v, tagMapGet map st.id = some v) :
    ∃ r, resolveTags templates map acc sts = .ok r := by
  induction sts generalizing acc with
  | nil => exact ⟨acc, rfl⟩
  | cons q rest ih =>
    obtain ⟨v, hv⟩ := h q (List.mem_cons_self _ _)
    obtain ⟨r, hr⟩ := ih (btInsert v (templates.instantiate v) acc)
      (fun st hst => h st (List.mem_cons_of_mem _ hst))
    exact ⟨r, by simp [resolveTags, hv, hr]⟩

theorem tasksFromSerde_invalid (templates : Templates) (map : TagMap) (gen : Nat)
    (sts : List SerTask) (h : ∃ t ∈ sts, ∃ tag ∈ t.tags, tagMapGet map tag.id = none) :
    ∃ tid,
      (∃ t ∈ sts, ∃ tag ∈ t.tags, tag.id = tid ∧ tagMapGet map tid = none) ∧
      tasksFromSerde templates map gen sts =
        .error ("Encountered invalid tag Id " ++ toString tid) := by
  induction sts generalizing gen with
  | nil =>
    obtain ⟨t, h1, h2⟩ := h
    cases h1
  | cons q rest ih =>
    by_cases hq : ∃ tag ∈ q.tags, tagMapGet map tag.id = none
    · obtain ⟨tid, htid, herr⟩ := resolveTags_invalid templates map [] q.tags hq
      refine ⟨tid, ?_, ?_⟩
      · obtain ⟨st, hst, h1, h2⟩ := htid
        exact ⟨q, List.mem_cons_self _ _, st, hst, h1, h2⟩
      · simp [tasksFromSerde, Task.with_serde, herr]
    · have hq2 : ∀ tag ∈ q.tags, ∃ v, tagMapGet map tag.id = some v := by
        intro tag htag
        cases hvv : tagMapGet map tag.id with
        | none => exact absurd ⟨tag, htag, hvv⟩ hq
        | some v => exact ⟨v, rfl⟩
      obtain ⟨r, hr⟩ := resolveTags_total templates map [] q.tags hq2
      have hrest : ∃ t ∈ rest, ∃ tag ∈ t.tags, tagMapGet map tag.id = none := by
        obtain ⟨t, hst, htag⟩ := h
        rcases List.mem_cons.mp hst with rfl | hm
        · exact absurd htag hq
        · exact ⟨t, hm, htag⟩
      obtain ⟨tid, htid, herr⟩ := ih (gen + 1) hrest
      refine ⟨tid, ?_, ?_⟩
      · obtain ⟨t, ht, hrest2⟩ := htid
        exact ⟨t, List.mem_cons_of_mem _ ht, hrest2⟩
      · simp [tasksFromSerde, Task.with_serde, hr, herr]

/-- C5: a serialised task state containing a task with a tag id absent
from the validation map makes the collection construction — and hence
the whole state construction — fail with an error whose message
contains the offending id, producing no partial collection or state. -/
theorem c5_invalid_tag (sts : List SerTask) (templates : Templates) (map : TagMap) (gen : Nat)
    (h : ∃ t ∈ sts, ∃ tag ∈ t.tags, tagMapGet map tag.id = none) :
    ∃ tid msg,
      (∃ t ∈ sts, ∃ tag ∈ t.tags, tag.id = tid ∧ tagMapGet map tid = none) ∧
      msg = "Encountered invalid tag Id " ++ toString tid ∧
      (∃ a b, msg = a ++ toString tid ++ b) ∧
      Tasks.with_serde sts templates map gen = .error msg ∧
      (∀ (prog : SerProgState) (stpl : List SerTemplate),
        (Templates.with_serde stpl).1 = templates →
        (Templates.with_serde stpl).2 = map →
        State.with_serde prog { templates := stpl, tasks := sts } gen = .error msg) := by
  obtain ⟨tid, htid, herr⟩ := tasksFromSerde_invalid templates map gen sts h
  have htasks : Tasks.with_serde sts templates map gen =
      .error ("Encountered invalid tag Id " ++ toString tid) := by
    unfold Tasks.with_serde
    rw [herr]
  refine ⟨tid, "Encountered invalid tag Id " ++ toString tid, htid, rfl,
    ⟨"Encountered invalid tag Id ", "", by simp⟩, htasks, ?_⟩
  intro prog stpl h1 h2
  unfold State.with_serde
  simp only
  rw [h1, h2, htasks]

/-- C5 witness at a concrete input. -/
theorem c5_invalid_tag_witness :
    ∃ tid msg,
      (∃ t ∈ [({ summary := "x", tags := [{ id := 42 }] } : SerTask)],
        ∃ tag ∈ t.tags, tag.id = tid ∧ tagMapGet ([] : TagMap) tid = none) ∧
      msg = "Encountered invalid tag Id " ++ toString tid ∧
      (∃ a b, msg = a ++ toString tid ++ b) ∧
      Tasks.with_serde [({ summary := "x", tags := [{ id := 42 }] } : SerTask)]
        egTemplates ([] : TagMap) 0 = .error msg ∧
      (∀ (prog : SerProgState) (stpl : List SerTemplate),
        (Templates.with_serde stpl).1 = egTemplates →
        (Templates.with_serde stpl).2 = ([] : TagMap) →
        State.with_serde prog
          { templates := stpl, tasks := [({ summary := "x", tags := [{ id := 42 }] } : SerTask)] }
          0 = .error msg) :=
  c5_invalid_tag [({ summary := "x", tags := [{ id := 42 }] } : SerTask)]
    egTemplates ([] : TagMap) 0
    ⟨{ summary := "x", tags := [{ id := 42 }] }, List.mem_cons_self _ _,
      { id := 42 }, List.mem_cons_self _ _, rfl⟩

end Notnow
